import Mathlib

/-!
Verification of the fzsl repository's `fzsl/scanner.py` together with the
fuzzy-match core described by its specification.

Strings are modelled as `List Char`.  Side effects (subprocess execution,
the cache file, the working directory, path canonicalization) are modelled
by explicit parameters: a `run` function mapping (command, cwd) to a
subprocess outcome, an optional cache-file content threaded in and out of
`scan`, and a `canon` function standing for `os.path.realpath ∘ os.path.normpath`.
-/

/-- Python whitespace, as used by `str.split()` and `str.strip()`:
space, tab, newline, carriage return, vertical tab, form feed. -/
def isWS (c : Char) : Bool :=
  c = ' ' || c = '\t' || c = '\n' || c = '\r' || c = Char.ofNat 11 || c = Char.ofNat 12

/-- Accumulator worker for `pySplit`.  `acc` holds the (reversed) current run
of non-whitespace characters. -/
def pySplitAux : List Char → List Char → List (List Char)
  | [], [] => []
  | [], a :: as => [(a :: as).reverse]
  | c :: rest, acc =>
    if isWS c then
      match acc with
      | [] => pySplitAux rest []
      | a :: as => (a :: as).reverse :: pySplitAux rest []
    else pySplitAux rest (c :: acc)

/-- Python `str.split()` with no argument: maximal runs of non-whitespace
characters, in order; never produces empty tokens. -/
def pySplit (l : List Char) : List (List Char) :=
  pySplitAux l []

/-- Python `str.strip()`: remove leading and trailing whitespace. -/
def pyStrip (l : List Char) : List Char :=
  ((l.dropWhile isWS).reverse.dropWhile isWS).reverse

/-- Python `'\n'.join(ret)`. -/
def joinNL : List (List Char) → List Char
  | [] => []
  | [t] => t
  | t :: u :: ts => t ++ '\n' :: joinNL (u :: ts)

theorem pySplitAux_tokens (l : List Char) : ∀ (acc : List Char),
    (∀ c ∈ acc, isWS c = false) →
    ∀ t ∈ pySplitAux l acc, t ≠ [] ∧ ∀ c ∈ t, isWS c = false := by
  induction l with
  | nil =>
    intro acc hacc t ht
    cases acc with
    | nil => simp [pySplitAux] at ht
    | cons a as =>
      simp only [pySplitAux, List.mem_singleton] at ht
      subst ht
      refine ⟨by simp, ?_⟩
      intro c hc
      exact hacc c (List.mem_reverse.mp hc)
  | cons c rest ih =>
    intro acc hacc t ht
    by_cases hws : isWS c
    · cases acc with
      | nil =>
        simp only [pySplitAux, hws, if_true] at ht
        exact ih [] (by simp) t ht
      | cons a as =>
        simp only [pySplitAux, hws, if_true, List.mem_cons] at ht
        rcases ht with rfl | ht
        · refine ⟨by simp, ?_⟩
          intro d hd
          exact hacc d (List.mem_reverse.mp hd)
        · exact ih [] (by simp) t ht
    · simp only [pySplitAux, hws, if_false] at ht
      refine ih (c :: acc) ?_ t ht
      intro d hd
      rcases List.mem_cons.mp hd with rfl | hd
      · exact Bool.not_eq_true _ ▸ eq_false_of_ne_true hws
      · exact hacc d hd

theorem pySplit_tokens (l : List Char) :
    ∀ t ∈ pySplit l, t ≠ [] ∧ ∀ c ∈ t, isWS c = false :=
  pySplitAux_tokens l [] (by simp)

theorem pySplitAux_append_nonws (t : List Char) (h : ∀ c ∈ t, isWS c = false) :
    ∀ (s acc : List Char), pySplitAux (t ++ s) acc = pySplitAux s (t.reverse ++ acc) := by
  induction t with
  | nil => intro s acc; simp
  | cons c t' ih =>
    intro s acc
    have hc : isWS c = false := h c (by simp)
    have ht' : ∀ d ∈ t', isWS d = false := fun d hd => h d (by simp [hd])
    simp only [List.cons_append, pySplitAux, hc, Bool.false_eq_true, if_false,
      List.append_eq]
    rw [ih ht' s (c :: acc)]
    simp [List.append_assoc]

theorem pySplitAux_ws_cons (s : List Char) (a : Char) (as : List Char) (w : Char)
    (hw : isWS w = true) :
    pySplitAux (w :: s) (a :: as) = (a :: as).reverse :: pySplitAux s [] := by
  simp [pySplitAux, hw]

theorem dropWhile_isWS_eq_self (l : List Char) (h : ∀ c ∈ l, isWS c = false) :
    l.dropWhile isWS = l := by
  cases l with
  | nil => rfl
  | cons c cs => simp [List.dropWhile, h c (by simp)]

theorem pyStrip_eq_self (l : List Char) (h : ∀ c ∈ l, isWS c = false) :
    pyStrip l = l := by
  unfold pyStrip
  rw [dropWhile_isWS_eq_self l h,
      dropWhile_isWS_eq_self l.reverse (fun c hc => h c (List.mem_reverse.mp hc)),
      List.reverse_reverse]

theorem map_pyStrip_eq_self (ts : List (List Char)) (h : ∀ t ∈ ts, pyStrip t = t) :
    ts.map pyStrip = ts := by
  induction ts with
  | nil => rfl
  | cons t ts ih => simp [h t (by simp), ih (fun x hx => h x (by simp [hx]))]

theorem map_pyStrip_pySplit (l : List Char) :
    (pySplit l).map pyStrip = pySplit l :=
  map_pyStrip_eq_self _ (fun t ht => pyStrip_eq_self t (pySplit_tokens l t ht).2)

theorem pySplit_joinNL (ts : List (List Char))
    (h : ∀ t ∈ ts, t ≠ [] ∧ ∀ c ∈ t, isWS c = false) :
    pySplit (joinNL ts) = ts := by
  induction ts with
  | nil => rfl
  | cons t ts ih =>
    have ht := h t (by simp)
    obtain ⟨a, as, hrev⟩ : ∃ a as, t.reverse = a :: as := by
      cases hr : t.reverse with
      | nil => exact absurd (List.reverse_eq_nil_iff.mp hr) ht.1
      | cons a as => exact ⟨a, as, rfl⟩
    cases ts with
    | nil =>
      show pySplitAux (joinNL [t]) [] = [t]
      have : joinNL [t] = t ++ [] := by simp [joinNL]
      rw [this, pySplitAux_append_nonws t ht.2, List.append_nil, hrev]
      simp only [pySplitAux]
      rw [← hrev, List.reverse_reverse]
    | cons u ts' =>
      show pySplitAux (joinNL (t :: u :: ts')) [] = t :: u :: ts'
      have hj : joinNL (t :: u :: ts') = t ++ '\n' :: joinNL (u :: ts') := rfl
      rw [hj, pySplitAux_append_nonws t ht.2, List.append_nil, hrev,
          pySplitAux_ws_cons _ a as '\n' (by simp [isWS])]
      rw [← hrev, List.reverse_reverse]
      have := ih (fun x hx => h x (by simp [hx]))
      rw [show pySplitAux (joinNL (u :: ts')) [] = pySplit (joinNL (u :: ts')) from rfl, this]

/-- `fzsl.scanner.SubprocessError`: raised when the external command cannot
be launched or exits with a nonzero return code.  The Python class only
builds a message from `(cmd, cwd, error)`; we keep the three fields. -/
structure SubprocessError where
  cmd : List Char
  cwd : List Char
  error : List Char
deriving DecidableEq

/-- Outcome of `subprocess.Popen` + `communicate()` for one (command, cwd)
pair: either the launch raises (the `except:` path), or the process runs to
completion with a return code and captured stdout/stderr. -/
inductive SubprocResult where
  | launchFailure (stderr : List Char)
  | completed (returncode : Int) (stdout : List Char) (stderr : List Char)
deriving DecidableEq

/-- `fzsl.scanner.SimpleScanner`: configuration state after `__init__`.
`root_path` and `cache` hold the already-canonicalized paths the constructor
stored.  Python passes the raw `priority` string through from the config, so
the field is a string-or-int sum. -/
structure SimpleScanner where
  name : List Char
  cmd : List Char
  priority : List Char ⊕ Int := Sum.inr 0
  detect_cmd : Option (List Char) := none
  root_path : Option (List Char) := none
  cache : Option (List Char) := none
deriving DecidableEq

/-- The working directory `scan` passes to the discovery command:
`cwd = path if self._root_path is None else self._root_path`, with
`path = os.getcwd()` when the caller gave none. -/
def scanCwd (s : SimpleScanner) (getcwd : List Char) (path : Option (List Char)) :
    List Char :=
  match s.root_path with
  | none => path.getD getcwd
  | some rp => rp

/-- `SimpleScanner.scan`.  `cacheFile` is the content of the file at the
configured cache path (`none` when that file does not exist or no cache path
is configured); `run` models `subprocess.Popen(..., shell=True)` keyed on
(command, cwd); `getcwd` models `os.getcwd()`.  The result pairs the
returned file list with the cache-file content after the call. -/
def SimpleScanner.scan (s : SimpleScanner) (cacheFile : Option (List Char))
    (run : List Char → List Char → SubprocResult) (getcwd : List Char)
    (path : Option (List Char)) (rescan : Bool) :
    Except SubprocessError (List (List Char) × Option (List Char)) :=
  let have_cache := s.cache.isSome && cacheFile.isSome
  if have_cache && !rescan then
    Except.ok ((pySplit (cacheFile.getD [])).map pyStrip, cacheFile)
  else
    let cwd := scanCwd s getcwd path
    match run s.cmd cwd with
    | SubprocResult.launchFailure stderr =>
      Except.error ⟨s.cmd, cwd, stderr⟩
    | SubprocResult.completed rc stdout stderr =>
      if rc ≠ 0 then
        Except.error ⟨s.cmd, cwd, stderr⟩
      else
        let ret := (pySplit stdout).map pyStrip
        Except.ok (ret, if s.cache.isSome then some (joinNL ret) else cacheFile)

/-- The directory in which `is_suitable` runs the detect command: the Python
code reassigns `path = os.path.realpath(os.path.normpath(path))` inside the
root-path branch, so the detect command sees the canonicalized path exactly
when a root path is configured. -/
def detectPath (s : SimpleScanner) (canon : List Char → List Char) (path : List Char) :
    List Char :=
  match s.root_path with
  | none => path
  | some _ => canon path

/-- `SimpleScanner.is_suitable`.  `canon` models
`os.path.realpath(os.path.normpath(·))`; `run` models running `detect_cmd`
with the given cwd.  Mirrors the source: root-path test first, then the
detect command, then the fall-through for a scanner with neither configured. -/
def SimpleScanner.is_suitable (s : SimpleScanner) (canon : List Char → List Char)
    (run : List Char → List Char → SubprocResult) (path : List Char) :
    Except SubprocessError Bool :=
  let path1 := detectPath s canon path
  let rootHit := match s.root_path with
    | some rp => rp.isPrefixOf path1
    | none => false
  if rootHit then
    Except.ok true
  else
    match s.detect_cmd with
    | some dc =>
      match run dc path1 with
      | SubprocResult.launchFailure stderr => Except.error ⟨dc, path1, stderr⟩
      | SubprocResult.completed rc _ _ =>
        if rc = 0 then Except.ok true
        else Except.ok false
    | none => Except.ok s.root_path.isNone

/-- Python `str.replace('\n', ' ')`, used on `cmd` and `detect_cmd` read from
the config (single-character pattern, so a plain map). -/
def replaceNL (l : List Char) : List Char :=
  l.map (fun c => if c = '\n' then ' ' else c)

/-- The exceptions configuration loading can raise: `noTypeE` models
`NoTypeError`, `unknownTypeE` models `UnknownTypeError`, and `noOptionE`
models `configparser.NoOptionError` as raised by `parser.get` for a missing
option. -/
inductive ConfigErr where
  | noTypeE (sect : List Char)
  | unknownTypeE (scannerType : List Char) (sect : List Char)
  | noOptionE (opt : List Char) (sect : List Char)
deriving DecidableEq

/-- `SimpleScanner.from_configparser`.  A config section is modelled as the
partial map `opts` from option name to value (`parser.has_option` /
`parser.get`); `canon` models the path canonicalization the constructor
applies to `root_path` and `cache`
(`realpath ∘ normpath ∘ expanduser ∘ expandvars`). -/
def SimpleScanner.from_configparser (canon : List Char → List Char)
    (sect : List Char) (opts : List Char → Option (List Char)) :
    Except ConfigErr SimpleScanner :=
  match opts "cmd".data with
  | none => Except.error (ConfigErr.noOptionE "cmd".data sect)
  | some cmd =>
    Except.ok
      { name := sect
        cmd := replaceNL cmd
        priority := match opts "priority".data with
          | some p => Sum.inl p
          | none => Sum.inr 0
        detect_cmd := (opts "detect_cmd".data).map replaceNL
        root_path := (opts "root_path".data).map canon
        cache := (opts "cache".data).map canon }

/-- `fzsl.scanner.scanner_from_configparser`. -/
def scanner_from_configparser (canon : List Char → List Char)
    (sect : List Char) (opts : List Char → Option (List Char)) :
    Except ConfigErr SimpleScanner :=
  match opts "type".data with
  | none => Except.error (ConfigErr.noTypeE sect)
  | some t =>
    if t = "simple".data then SimpleScanner.from_configparser canon sect opts
    else Except.error (ConfigErr.unknownTypeE t sect)

/-! ## The fuzzy-match core

`fzsl.core.FuzzyMatch` and the interactive session are declared by the
package (`fzsl/__init__.py`) but their module is not part of the sources
here, so the definitions below are modelled from the specification. -/

/-- Modelled from the spec: smart case — "if `query` contains any uppercase
letter, matching is case-sensitive" (`fzsl.core`, not under src/). -/
def hasUpper (q : List Char) : Bool :=
  q.any Char.isUpper

/-- Modelled from the spec: the case rule applied to a string before
matching; under a lowercase-only query both sides are compared
case-insensitively, i.e. lowercased (`fzsl.core`, not under src/). -/
def foldCase (q s : List Char) : List Char :=
  if hasUpper q then s else s.map Char.toLower

/-- Modelled from the spec: a separator character for the boundary bonus
("`/`, `_`, `-`, `.`, whitespace") (`fzsl.core`, not under src/). -/
def isSep (c : Char) : Bool :=
  c = '/' || c = '_' || c = '-' || c = '.' || isWS c

/-- Modelled from the spec: position `i` of candidate `c` starts a word —
start of the candidate, right after a separator, or at a lowercase→uppercase
transition (`fzsl.core`, not under src/). -/
def boundaryAt (c : List Char) (i : Nat) : Bool :=
  if i = 0 then true
  else match c.get? (i - 1), c.get? i with
    | some p, some cur => isSep p || (p.isLower && cur.isUpper)
    | _, _ => false

/-- Modelled from the spec: score contribution of matching position `i`
right after matched position `prev`: contiguous-match bonus, interior-gap
penalty proportional to the gap, boundary bonus (`fzsl.core`, not under
src/).  The exact weights are a tuning surface, not part of the contract. -/
def stepScore (c : List Char) (prev i : Nat) : Int :=
  (if i = prev + 1 then 8 else -(Int.ofNat (i - prev - 1)))
  + (if boundaryAt c i then 16 else 0)

/-- Modelled from the spec: cumulative score of the tail of an alignment
given the previously matched position (`fzsl.core`, not under src/). -/
def alignScoreAux (c : List Char) : Nat → List Nat → Int
  | _, [] => 0
  | prev, p :: ps => stepScore c prev p + alignScoreAux c p ps

/-- Modelled from the spec: total score of an alignment — leading-gap
penalty (3 per skipped leading character, heavier than the interior gap
penalty of 1), then per-transition bonuses (`fzsl.core`, not under src/). -/
def alignScore (c : List Char) : List Nat → Int
  | [] => 0
  | p :: ps => (if boundaryAt c p then 16 else 0) - 3 * Int.ofNat p + alignScoreAux c p ps

/-- Modelled from the spec: all subsequence alignments of `q` inside `c`,
as strictly increasing position lists offset by `i` — the search space of
the dynamic program ("for each query character, consider every candidate
position at or after the previous matched position") (`fzsl.core`, not
under src/). -/
def alignments : List Char → List Char → Nat → List (List Nat)
  | [], _, _ => [[]]
  | _ :: _, [], _ => []
  | q0 :: qs, c0 :: cs, i =>
    (if q0 = c0 then (alignments qs cs (i + 1)).map (fun ps => i :: ps) else [])
      ++ alignments (q0 :: qs) cs (i + 1)

/-- Modelled from the spec: a match result — the candidate's score and the
matched character indices (`fzsl.core`, not under src/). -/
structure MatchResult where
  score : Int
  positions : List Nat
deriving DecidableEq

/-- Modelled from the spec: `FuzzyMatch.score(query, candidate)` — apply the
smart-case rule, pick the alignment maximizing the total score, and return
its score with its matched positions; `none` is the explicit no-match
value (`fzsl.core`, not under src/). -/
def FuzzyMatch.score (q c : List Char) : Option MatchResult :=
  ((alignments (foldCase q q) (foldCase q c) 0).argmax (alignScore c)).map
    (fun ps => ⟨alignScore c ps, ps⟩)

/-- Modelled from the spec: a candidate is a string plus its position in
the original discovery order (`fzsl.core`, not under src/). -/
structure Candidate where
  idx : Nat
  str : List Char
deriving DecidableEq

/-- Modelled from the spec: the pool the Search Session computes for a
query — the candidates of the working pool that the Matcher accepts
(`fzsl.core`, not under src/). -/
def poolFor (pool : List Candidate) (q : List Char) : List Candidate :=
  pool.filter (fun c => (FuzzyMatch.score q c.str).isSome)

theorem alignments_ne_nil_iff (c : List Char) : ∀ (q : List Char) (i : Nat),
    alignments q c i ≠ [] ↔ q.Sublist c := by
  induction c with
  | nil =>
    intro q i
    cases q with
    | nil => simp [alignments]
    | cons q0 qs => simp [alignments]
  | cons c0 cs ih =>
    intro q i
    cases q with
    | nil => simp [alignments, List.nil_sublist]
    | cons q0 qs =>
      have hsub : (q0 :: qs).Sublist (c0 :: cs) ↔
          (q0 = c0 ∧ qs.Sublist cs) ∨ (q0 :: qs).Sublist cs := by
        constructor
        · intro h
          cases h with
          | cons _ h' => exact Or.inr h'
          | cons₂ _ h' => exact Or.inl ⟨rfl, h'⟩
        · rintro (⟨rfl, h'⟩ | h')
          · exact List.cons_sublist_cons.mpr h'
          · exact h'.cons c0
      rw [hsub]
      constructor
      · intro h
        obtain ⟨ps, hps⟩ := List.exists_mem_of_ne_nil _ h
        rcases List.mem_append.mp hps with hl | hr
        · by_cases heq : q0 = c0
          · refine Or.inl ⟨heq, ?_⟩
            rw [if_pos heq] at hl
            obtain ⟨ps', hps', _⟩ := List.mem_map.mp hl
            exact (ih qs (i + 1)).mp (List.ne_nil_of_mem hps')
          · rw [if_neg heq] at hl
            exact absurd hl (List.not_mem_nil ps)
        · exact Or.inr ((ih (q0 :: qs) (i + 1)).mp (List.ne_nil_of_mem hr))
      · rintro (⟨rfl, h'⟩ | h') <;> intro hnil <;>
          obtain ⟨h1, h2⟩ := List.append_eq_nil.mp hnil
        · rw [if_pos rfl, List.map_eq_nil_iff] at h1
          exact (ih qs (i + 1)).mpr h' h1
        · exact (ih (q0 :: qs) (i + 1)).mpr h' h2

theorem score_isSome_iff (q c : List Char) :
    (FuzzyMatch.score q c).isSome = true ↔ (foldCase q q).Sublist (foldCase q c) := by
  rw [← alignments_ne_nil_iff (foldCase q c) (foldCase q q) 0]
  unfold FuzzyMatch.score
  cases h : List.argmax (alignScore c) (alignments (foldCase q q) (foldCase q c) 0) with
  | none => simp [h, List.argmax_eq_none.mp h]
  | some ps =>
    simp only [h, Option.map_some', Option.isSome_some, true_iff]
    exact List.ne_nil_of_mem (List.argmax_mem h)

theorem hasUpper_append_false (q : List Char) (ch : Char)
    (h : hasUpper (q ++ [ch]) = false) : hasUpper q = false := by
  unfold hasUpper at h ⊢
  rw [List.any_append] at h
  exact (Bool.or_eq_false_iff.mp h).1

theorem score_append_isSome (q : List Char) (ch : Char) (c : List Char)
    (h : (FuzzyMatch.score (q ++ [ch]) c).isSome = true) :
    (FuzzyMatch.score q c).isSome = true := by
  rw [score_isSome_iff] at h ⊢
  by_cases hq : hasUpper q = true
  · have hq' : hasUpper (q ++ [ch]) = true := by
      unfold hasUpper at hq ⊢
      rw [List.any_append, hq, Bool.true_or]
    simp only [foldCase, hq', if_true] at h
    simp only [foldCase, hq, if_true]
    exact (List.sublist_append_left q [ch]).trans h
  · rw [Bool.not_eq_true] at hq
    simp only [foldCase, hq, Bool.false_eq_true, if_false]
    by_cases hq' : hasUpper (q ++ [ch]) = true
    · simp only [foldCase, hq', if_true] at h
      exact List.Sublist.map _ ((List.sublist_append_left q [ch]).trans h)
    · rw [Bool.not_eq_true] at hq'
      simp only [foldCase, hq', Bool.false_eq_true, if_false] at h
      refine List.Sublist.trans ?_ h
      rw [List.map_append]
      exact List.sublist_append_left _ _

theorem scan_ok_list (s : SimpleScanner) (cacheFile : Option (List Char))
    (run : List Char → List Char → SubprocResult) (getcwd : List Char)
    (path : Option (List Char)) (rescan : Bool) (l : List (List Char))
    (cf : Option (List Char))
    (h : s.scan cacheFile run getcwd path rescan = Except.ok (l, cf)) :
    ∃ y, l = (pySplit y).map pyStrip := by
  simp only [SimpleScanner.scan] at h
  by_cases hc : (s.cache.isSome && cacheFile.isSome && !rescan) = true
  · rw [if_pos hc] at h
    simp only [Except.ok.injEq, Prod.mk.injEq] at h
    exact ⟨cacheFile.getD [], h.1.symm⟩
  · rw [if_neg hc] at h
    cases hr : run s.cmd (scanCwd s getcwd path) with
    | launchFailure st =>
      rw [hr] at h
      exact absurd h (by simp)
    | completed rc so se =>
      rw [hr] at h
      dsimp only at h
      by_cases hrc : rc = 0
      · rw [if_neg (by simp [hrc])] at h
        simp only [Except.ok.injEq, Prod.mk.injEq] at h
        exact ⟨so, h.1.symm⟩
      · rw [if_pos hrc] at h
        exact absurd h (by simp)

theorem scan_command_success (s : SimpleScanner) (cacheFile : Option (List Char))
    (run : List Char → List Char → SubprocResult) (getcwd : List Char)
    (path : Option (List Char)) (rescan : Bool) (so se : List Char)
    (h : (s.cache.isSome && cacheFile.isSome && !rescan) = false)
    (hr : run s.cmd (scanCwd s getcwd path) = SubprocResult.completed 0 so se) :
    s.scan cacheFile run getcwd path rescan =
      Except.ok ((pySplit so).map pyStrip,
        if s.cache.isSome then some (joinNL ((pySplit so).map pyStrip))
        else cacheFile) := by
  simp [SimpleScanner.scan, h, hr]

theorem scan_cache_hit (s : SimpleScanner) (content : List Char)
    (run : List Char → List Char → SubprocResult) (getcwd : List Char)
    (path : Option (List Char)) (hc : s.cache.isSome = true) :
    s.scan (some content) run getcwd path false =
      Except.ok ((pySplit content).map pyStrip, some content) := by
  simp [SimpleScanner.scan, hc]

/-- Claim C1: for an invocation of `SimpleScanner.scan` not served from the
cache, the call fails with `SubprocessError` exactly when the discovery
command cannot produce a file list — the subprocess fails to launch or exits
with a nonzero return code — and otherwise returns the list of candidate
strings. -/
theorem C1_scan_error_iff_discovery_failure (s : SimpleScanner)
    (cacheFile : Option (List Char)) (run : List Char → List Char → SubprocResult)
    (getcwd : List Char) (path : Option (List Char)) (rescan : Bool)
    (h : (s.cache.isSome && cacheFile.isSome && !rescan) = false) :
    ((∃ e, s.scan cacheFile run getcwd path rescan = Except.error e) ↔
      ((∃ st, run s.cmd (scanCwd s getcwd path) = SubprocResult.launchFailure st) ∨
       (∃ rc so se, run s.cmd (scanCwd s getcwd path) = SubprocResult.completed rc so se
          ∧ rc ≠ 0))) ∧
    (∀ so se, run s.cmd (scanCwd s getcwd path) = SubprocResult.completed 0 so se →
      s.scan cacheFile run getcwd path rescan =
        Except.ok ((pySplit so).map pyStrip,
          if s.cache.isSome then some (joinNL ((pySplit so).map pyStrip))
          else cacheFile)) := by
  constructor
  · cases hr : run s.cmd (scanCwd s getcwd path) with
    | launchFailure st =>
      constructor
      · intro _
        exact Or.inl ⟨st, rfl⟩
      · intro _
        exact ⟨⟨s.cmd, scanCwd s getcwd path, st⟩, by simp [SimpleScanner.scan, h, hr]⟩
    | completed rc so se =>
      by_cases hrc : rc = 0
      · subst hrc
        constructor
        · rintro ⟨e, he⟩
          simp [SimpleScanner.scan, h, hr] at he
        · rintro (⟨st, hst⟩ | ⟨rc', so', se', hcm, hne⟩)
          · exact absurd hst (by simp)
          · injection hcm with h1 h2 h3
            exact absurd h1.symm hne
      · constructor
        · intro _
          exact Or.inr ⟨rc, so, se, rfl, hrc⟩
        · intro _
          exact ⟨⟨s.cmd, scanCwd s getcwd path, se⟩,
            by simp [SimpleScanner.scan, h, hr, hrc]⟩
  · intro so se hr
    exact scan_command_success s cacheFile run getcwd path rescan so se h hr

/-- Claim C2: every string returned by `SimpleScanner.scan` — from the
discovery command as well as from the cache file — is whitespace-trimmed
(a fixed point of `strip`). -/
theorem C2_scan_results_trimmed (s : SimpleScanner) (cacheFile : Option (List Char))
    (run : List Char → List Char → SubprocResult) (getcwd : List Char)
    (path : Option (List Char)) (rescan : Bool) (l : List (List Char))
    (cf : Option (List Char))
    (h : s.scan cacheFile run getcwd path rescan = Except.ok (l, cf)) :
    ∀ x ∈ l, pyStrip x = x := by
  obtain ⟨y, rfl⟩ := scan_ok_list s cacheFile run getcwd path rescan _ cf h
  rw [map_pyStrip_pySplit]
  intro x hx
  exact pyStrip_eq_self x (pySplit_tokens y x hx).2

/-- Claim C3: with a cache path configured and the cache file present,
`scan` with `rescan = False` returns the list read from the cache file,
leaves the cache unchanged, and never consults the discovery command
(the result is the same for any `run`); with `rescan = True` or no cache
file, `scan` runs the discovery command and, when a cache path is
configured, overwrites the cache with the newly scanned list. -/
theorem C3_scan_cache_policy (s : SimpleScanner)
    (run run' : List Char → List Char → SubprocResult)
    (getcwd : List Char) (path : Option (List Char)) :
    (∀ content, s.cache.isSome = true →
      s.scan (some content) run getcwd path false =
        Except.ok ((pySplit content).map pyStrip, some content) ∧
      s.scan (some content) run getcwd path false =
        s.scan (some content) run' getcwd path false) ∧
    (∀ cacheFile rescan so se, (rescan = true ∨ cacheFile = none) →
      s.cache.isSome = true →
      run s.cmd (scanCwd s getcwd path) = SubprocResult.completed 0 so se →
      s.scan cacheFile run getcwd path rescan =
        Except.ok ((pySplit so).map pyStrip,
          some (joinNL ((pySplit so).map pyStrip)))) := by
  constructor
  · intro content hc
    constructor
    · exact scan_cache_hit s content run getcwd path hc
    · rw [scan_cache_hit s content run getcwd path hc,
          scan_cache_hit s content run' getcwd path hc]
  · intro cacheFile rescan so se hbypass hc hr
    have hcond : (s.cache.isSome && cacheFile.isSome && !rescan) = false := by
      rcases hbypass with rfl | rfl <;> simp
    simp only [SimpleScanner.scan, hcond, Bool.false_eq_true, if_false]
    simp [hr, hc]

/-- Claim C4: the list `scan` returns is exactly the whitespace-separated
tokenization of the discovery command's output (or of the cache file), in
order.  The third conjunct makes the order/duplication structure explicit:
every occurrence of a token contributes its own entry, at its position in
the text, so no deduplication or sorting happens. -/
theorem C4_scan_token_per_entry (s : SimpleScanner)
    (run : List Char → List Char → SubprocResult)
    (getcwd : List Char) (path : Option (List Char)) :
    (∀ cacheFile rescan so se,
      (s.cache.isSome && cacheFile.isSome && !rescan) = false →
      run s.cmd (scanCwd s getcwd path) = SubprocResult.completed 0 so se →
      ∃ cf, s.scan cacheFile run getcwd path rescan = Except.ok (pySplit so, cf)) ∧
    (∀ content, s.cache.isSome = true →
      s.scan (some content) run getcwd path false =
        Except.ok (pySplit content, some content)) ∧
    (∀ t r, t ≠ [] → (∀ c ∈ t, isWS c = false) →
      pySplit (t ++ '\n' :: r) = t :: pySplit r) := by
  refine ⟨?_, ?_, ?_⟩
  · intro cacheFile rescan so se hcond hr
    refine ⟨if s.cache.isSome then some (joinNL ((pySplit so).map pyStrip))
      else cacheFile, ?_⟩
    rw [scan_command_success s cacheFile run getcwd path rescan so se hcond hr,
      map_pyStrip_pySplit]
  · intro content hc
    rw [scan_cache_hit s content run getcwd path hc, map_pyStrip_pySplit]
  · intro t r ht hws
    obtain ⟨a, as, hrev⟩ : ∃ a as, t.reverse = a :: as := by
      cases hr : t.reverse with
      | nil => exact absurd (List.reverse_eq_nil_iff.mp hr) ht
      | cons a as => exact ⟨a, as, rfl⟩
    show pySplitAux (t ++ '\n' :: r) [] = t :: pySplit r
    rw [pySplitAux_append_nonws t hws, List.append_nil, hrev,
        pySplitAux_ws_cons _ a as '\n' (by simp [isWS])]
    rw [← hrev, List.reverse_reverse]
    rfl

/-- Claim C9: cache round-trip — after a scan that executed the discovery
command and wrote the cache, a later `scan` with `rescan = False` on the
unmodified cache file returns exactly the same list (for any discovery
behaviour `run'` at that later time), and leaves the cache unchanged. -/
theorem C9_cache_round_trip (s : SimpleScanner) (cacheFile : Option (List Char))
    (run run' : List Char → List Char → SubprocResult)
    (getcwd getcwd' : List Char) (path path' : Option (List Char)) (rescan : Bool)
    (l : List (List Char)) (w : List Char)
    (hc : s.cache.isSome = true)
    (hnc : (s.cache.isSome && cacheFile.isSome && !rescan) = false)
    (h1 : s.scan cacheFile run getcwd path rescan = Except.ok (l, some w)) :
    s.scan (some w) run' getcwd' path' false = Except.ok (l, some w) := by
  cases hr : run s.cmd (scanCwd s getcwd path) with
  | launchFailure st =>
    simp [SimpleScanner.scan, hnc, hr] at h1
  | completed rc so se =>
    by_cases hrc : rc = 0
    · subst hrc
      rw [scan_command_success s cacheFile run getcwd path rescan so se hnc hr] at h1
      rw [if_pos hc] at h1
      simp only [Except.ok.injEq, Prod.mk.injEq, Option.some.injEq] at h1
      obtain ⟨hl, hw⟩ := h1
      subst hl
      subst hw
      rw [scan_cache_hit s _ run' getcwd' path' hc]
      rw [map_pyStrip_pySplit]
      rw [pySplit_joinNL]
      intro t ht
      rw [map_pyStrip_pySplit] at ht
      exact pySplit_tokens so t ht
    · simp [SimpleScanner.scan, hnc, hr, hrc] at h1

/-- Claim C8: under the assumption that a configured detect command can be
launched, `is_suitable` returns True exactly when the canonicalized path
extends a configured root path as a string, or a configured detect command
exits with return code 0 (the code runs it in the canonicalized path when a
root path is configured, else in the path as given — `detectPath`), or
neither a root path nor a detect command is configured; a root-path prefix
hit decides the call without running the detect command (any `run₂` gives
True), and the call always returns a boolean, never an error. -/
theorem C8_is_suitable_true_iff (s : SimpleScanner) (canon : List Char → List Char)
    (run : List Char → List Char → SubprocResult) (path : List Char)
    (hlaunch : ∀ dc st, s.detect_cmd = some dc →
      run dc (detectPath s canon path) ≠ SubprocResult.launchFailure st) :
    (s.is_suitable canon run path = Except.ok true ↔
      ((∃ rp, s.root_path = some rp ∧ rp.isPrefixOf (canon path) = true) ∨
       (∃ dc rc so se, s.detect_cmd = some dc ∧
          run dc (detectPath s canon path) = SubprocResult.completed rc so se ∧
          rc = 0) ∨
       (s.root_path = none ∧ s.detect_cmd = none))) ∧
    (∀ rp, s.root_path = some rp → rp.isPrefixOf (canon path) = true →
      ∀ run₂ : List Char → List Char → SubprocResult,
        s.is_suitable canon run₂ path = Except.ok true) ∧
    (∃ b, s.is_suitable canon run path = Except.ok b) := by
  refine ⟨?_, ?_, ?_⟩
  · cases hroot : s.root_path with
    | some rp =>
      have hdp : detectPath s canon path = canon path := by
        simp [detectPath, hroot]
      by_cases hpre : rp.isPrefixOf (canon path) = true
      · have hres : s.is_suitable canon run path = Except.ok true := by
          simp [SimpleScanner.is_suitable, hroot, hdp, hpre]
        rw [hres]
        exact ⟨fun _ => Or.inl ⟨rp, rfl, hpre⟩, fun _ => rfl⟩
      · cases hdc : s.detect_cmd with
        | none =>
          have hres : s.is_suitable canon run path = Except.ok false := by
            simp [SimpleScanner.is_suitable, hroot, hdp, hpre, hdc]
          rw [hres]
          constructor
          · intro h
            exact absurd h (by simp)
          · rintro (⟨rp', hrp', hpre'⟩ | ⟨dc, rc, so, se, hdc', _⟩ | ⟨hnone, _⟩)
            · injection hrp' with h1
              subst h1
              exact absurd hpre' hpre
            · exact absurd hdc' (by simp)
            · exact absurd hnone (by simp)
        | some dc =>
          cases hr : run dc (detectPath s canon path) with
          | launchFailure st => exact absurd hr (hlaunch dc st hdc)
          | completed rc so se =>
            rw [hdp] at hr
            by_cases hrc : rc = 0
            · subst hrc
              have hres : s.is_suitable canon run path = Except.ok true := by
                simp [SimpleScanner.is_suitable, hroot, hdp, hpre, hdc, hr]
              rw [hres]
              refine ⟨fun _ => Or.inr (Or.inl ⟨dc, 0, so, se, rfl, ?_, rfl⟩),
                fun _ => rfl⟩
              rw [hdp]
              exact hr
            · have hres : s.is_suitable canon run path = Except.ok false := by
                simp [SimpleScanner.is_suitable, hroot, hdp, hpre, hdc, hr, hrc]
              rw [hres]
              constructor
              · intro h
                exact absurd h (by simp)
              · rintro (⟨rp', hrp', hpre'⟩ |
                    ⟨dc', rc', so', se', hdc', hr', hrc'⟩ | ⟨hnone, _⟩)
                · injection hrp' with h1
                  subst h1
                  exact absurd hpre' hpre
                · injection hdc' with h1
                  subst h1
                  rw [hdp, hr] at hr'
                  injection hr' with h1 h2 h3
                  exact absurd (h1.symm ▸ hrc') hrc
                · exact absurd hnone (by simp)
    | none =>
      have hdp : detectPath s canon path = path := by
        simp [detectPath, hroot]
      cases hdc : s.detect_cmd with
      | none =>
        have hres : s.is_suitable canon run path = Except.ok true := by
          simp [SimpleScanner.is_suitable, hroot, hdp, hdc]
        rw [hres]
        exact ⟨fun _ => Or.inr (Or.inr ⟨rfl, rfl⟩), fun _ => rfl⟩
      | some dc =>
        cases hr : run dc (detectPath s canon path) with
        | launchFailure st => exact absurd hr (hlaunch dc st hdc)
        | completed rc so se =>
          rw [hdp] at hr
          by_cases hrc : rc = 0
          · subst hrc
            have hres : s.is_suitable canon run path = Except.ok true := by
              simp [SimpleScanner.is_suitable, hroot, hdp, hdc, hr]
            rw [hres]
            refine ⟨fun _ => Or.inr (Or.inl ⟨dc, 0, so, se, rfl, ?_, rfl⟩),
              fun _ => rfl⟩
            rw [hdp]
            exact hr
          · have hres : s.is_suitable canon run path = Except.ok false := by
              simp [SimpleScanner.is_suitable, hroot, hdp, hdc, hr, hrc]
            rw [hres]
            constructor
            · intro h
              exact absurd h (by simp)
            · rintro (⟨rp', hrp', _⟩ |
                  ⟨dc', rc', so', se', hdc', hr', hrc'⟩ | ⟨_, hdcn⟩)
              · exact absurd hrp' (by simp)
              · injection hdc' with h1
                subst h1
                rw [hdp, hr] at hr'
                injection hr' with h1 h2 h3
                exact absurd (h1.symm ▸ hrc') hrc
              · exact absurd hdcn (by simp)
  · intro rp hroot hpre run₂
    have hdp : detectPath s canon path = canon path := by
      simp [detectPath, hroot]
    simp [SimpleScanner.is_suitable, hroot, hdp, hpre]
  · cases hroot : s.root_path with
    | some rp =>
      have hdp : detectPath s canon path = canon path := by
        simp [detectPath, hroot]
      by_cases hpre : rp.isPrefixOf (canon path) = true
      · exact ⟨true, by simp [SimpleScanner.is_suitable, hroot, hdp, hpre]⟩
      · cases hdc : s.detect_cmd with
        | none => exact ⟨false, by simp [SimpleScanner.is_suitable, hroot, hdp, hpre, hdc]⟩
        | some dc =>
          cases hr : run dc (detectPath s canon path) with
          | launchFailure st => exact absurd hr (hlaunch dc st hdc)
          | completed rc so se =>
            rw [hdp] at hr
            by_cases hrc : rc = 0
            · exact ⟨true,
                by simp [SimpleScanner.is_suitable, hroot, hdp, hpre, hdc, hr, hrc]⟩
            · exact ⟨false,
                by simp [SimpleScanner.is_suitable, hroot, hdp, hpre, hdc, hr, hrc]⟩
    | none =>
      have hdp : detectPath s canon path = path := by
        simp [detectPath, hroot]
      cases hdc : s.detect_cmd with
      | none => exact ⟨true, by simp [SimpleScanner.is_suitable, hroot, hdp, hdc]⟩
      | some dc =>
        cases hr : run dc (detectPath s canon path) with
        | launchFailure st => exact absurd hr (hlaunch dc st hdc)
        | completed rc so se =>
          rw [hdp] at hr
          by_cases hrc : rc = 0
          · exact ⟨true, by simp [SimpleScanner.is_suitable, hroot, hdp, hdc, hr, hrc]⟩
          · exact ⟨false, by simp [SimpleScanner.is_suitable, hroot, hdp, hdc, hr, hrc]⟩

/-- The config section used to refute claim C10 as stated: it has
`type = simple` but no `cmd` option. -/
def c10opts : List Char → Option (List Char) :=
  fun k => if k = "type".data then some "simple".data else none

/-- Claim C10, counterexample: on a section whose `type` is `simple` but
which lacks `cmd`, `scanner_from_configparser` raises
`configparser.NoOptionError` — a fourth outcome, so it neither returns a
`SimpleScanner` nor raises `NoTypeError`/`UnknownTypeError` as the claim
requires. -/
theorem C10_counterexample :
    scanner_from_configparser id "rule".data c10opts =
      Except.error (ConfigErr.noOptionE "cmd".data "rule".data) ∧
    (∀ sc : SimpleScanner,
      scanner_from_configparser id "rule".data c10opts ≠ Except.ok sc) ∧
    scanner_from_configparser id "rule".data c10opts ≠
      Except.error (ConfigErr.noTypeE "rule".data) ∧
    (∀ t, scanner_from_configparser id "rule".data c10opts ≠
      Except.error (ConfigErr.unknownTypeE t "rule".data)) := by
  have h : scanner_from_configparser id "rule".data c10opts =
      Except.error (ConfigErr.noOptionE "cmd".data "rule".data) := by rfl
  refine ⟨h, ?_, ?_, ?_⟩
  · intro sc hsc
    rw [h] at hsc
    exact absurd hsc (by simp)
  · intro hn
    rw [h] at hn
    simp at hn
  · intro t ht
    rw [h] at ht
    simp at ht

/-- Claim C10 (amended): `scanner_from_configparser` raises `NoTypeError`
exactly when the section has no `type` option, raises `UnknownTypeError`
exactly when the `type` option has a value other than `simple`, and when
`type` is `simple` it requires the `cmd` option: it raises
`configparser.NoOptionError` when `cmd` is missing and otherwise returns the
`SimpleScanner` built from the section; no other outcome is possible. -/
theorem C10_scanner_from_configparser_cases (canon : List Char → List Char)
    (sect : List Char) (opts : List Char → Option (List Char)) :
    (scanner_from_configparser canon sect opts =
        Except.error (ConfigErr.noTypeE sect) ↔ opts "type".data = none) ∧
    ((∃ t, scanner_from_configparser canon sect opts =
        Except.error (ConfigErr.unknownTypeE t sect)) ↔
      (∃ t, opts "type".data = some t ∧ t ≠ "simple".data)) ∧
    (opts "type".data = some "simple".data → opts "cmd".data = none →
      scanner_from_configparser canon sect opts =
        Except.error (ConfigErr.noOptionE "cmd".data sect)) ∧
    (∀ cmd, opts "type".data = some "simple".data → opts "cmd".data = some cmd →
      scanner_from_configparser canon sect opts = Except.ok
        { name := sect
          cmd := replaceNL cmd
          priority := match opts "priority".data with
            | some p => Sum.inl p
            | none => Sum.inr 0
          detect_cmd := (opts "detect_cmd".data).map replaceNL
          root_path := (opts "root_path".data).map canon
          cache := (opts "cache".data).map canon }) := by
  refine ⟨?_, ?_, ?_, ?_⟩
  · cases hty : opts "type".data with
    | none => simp [scanner_from_configparser, hty]
    | some t =>
      simp only [scanner_from_configparser, hty]
      by_cases ht : t = "simple".data
      · rw [if_pos ht]
        cases hcmd : opts "cmd".data with
        | none => simp [SimpleScanner.from_configparser, hcmd]
        | some cmd => simp [SimpleScanner.from_configparser, hcmd]
      · rw [if_neg ht]
        simp
  · cases hty : opts "type".data with
    | none =>
      simp only [scanner_from_configparser, hty]
      constructor
      · rintro ⟨t, ht⟩
        exact absurd ht (by simp)
      · rintro ⟨t, ht, _⟩
        exact absurd ht (by simp)
    | some t =>
      simp only [scanner_from_configparser, hty]
      by_cases ht : t = "simple".data
      · rw [if_pos ht]
        constructor
        · rintro ⟨t', ht'⟩
          exfalso
          cases hcmd : opts "cmd".data with
          | none =>
            rw [SimpleScanner.from_configparser, hcmd] at ht'
            exact absurd ht' (by simp)
          | some cmd =>
            rw [SimpleScanner.from_configparser, hcmd] at ht'
            exact absurd ht' (by simp)
        · rintro ⟨t', ht', hne⟩
          injection ht' with h1
          exact absurd (h1 ▸ ht) hne
      · rw [if_neg ht]
        exact ⟨fun _ => ⟨t, rfl, ht⟩, fun _ => ⟨t, rfl⟩⟩
  · intro hty hcmd
    simp [scanner_from_configparser, hty, SimpleScanner.from_configparser, hcmd]
  · intro cmd hty hcmd
    simp [scanner_from_configparser, hty, SimpleScanner.from_configparser, hcmd]

/-- Claim C5: `FuzzyMatch.score` returns the explicit no-match value exactly
when the query is not a subsequence of the candidate under the active case
rule, and whenever the query is such a subsequence it returns a match
result; the function is total, so no error is ever raised. -/
theorem C5_score_none_iff_not_subsequence (q c : List Char) :
    (FuzzyMatch.score q c = none ↔ ¬ (foldCase q q).Sublist (foldCase q c)) ∧
    ((foldCase q q).Sublist (foldCase q c) → ∃ r, FuzzyMatch.score q c = some r) := by
  have h := score_isSome_iff q c
  constructor
  · constructor
    · intro hn hs
      rw [← h] at hs
      rw [hn] at hs
      exact absurd hs (by simp)
    · intro hn
      cases hsc : FuzzyMatch.score q c with
      | none => rfl
      | some r => exact absurd (h.mp (by simp [hsc])) hn
  · intro hs
    exact Option.isSome_iff_exists.mp (h.mpr hs)

/-- Claim C6: the Matcher applies smart case — a query containing an
uppercase letter matches case-sensitively and a query containing none
matches case-insensitively; in particular query "foo" matches "FOO.txt" and
"Foo.txt", while query "Foo" does not match "foo.txt". -/
theorem C6_smart_case (q c : List Char) :
    (hasUpper q = true → (FuzzyMatch.score q c ≠ none ↔ q.Sublist c)) ∧
    (hasUpper q = false →
      (FuzzyMatch.score q c ≠ none ↔
        (q.map Char.toLower).Sublist (c.map Char.toLower))) ∧
    FuzzyMatch.score "foo".data "FOO.txt".data ≠ none ∧
    FuzzyMatch.score "foo".data "Foo.txt".data ≠ none ∧
    FuzzyMatch.score "Foo".data "foo.txt".data = none := by
  refine ⟨?_, ?_, by decide, by decide, by decide⟩
  · intro hu
    rw [← Option.isSome_iff_ne_none, score_isSome_iff]
    simp [foldCase, hu]
  · intro hu
    rw [← Option.isSome_iff_ne_none, score_isSome_iff]
    simp [foldCase, hu]

/-- Claim C7: monotonic narrowing — for every query `q` and character `ch`,
the pool the Search Session computes for `q ++ [ch]` is a subset, by
candidate identity, of the pool it computed for `q`. -/
theorem C7_monotonic_narrowing (pool : List Candidate) (q : List Char) (ch : Char) :
    ∀ cand ∈ poolFor pool (q ++ [ch]), cand ∈ poolFor pool q := by
  intro cand hc
  rw [poolFor, List.mem_filter] at hc ⊢
  exact ⟨hc.1, score_append_isSome q ch cand.str hc.2⟩

/-- A plain scanner: no detect command, no root path, no cache. -/
def wScanner : SimpleScanner := { name := "w".data, cmd := "find".data }

/-- A scanner with a cache path configured. -/
def wScannerC : SimpleScanner :=
  { name := "w".data, cmd := "find".data, cache := some "/tmp/c".data }

/-- A scanner with a root path configured. -/
def wScannerR : SimpleScanner :=
  { name := "w".data, cmd := "find".data, root_path := some "/r".data }

/-- A discovery world whose command succeeds with output containing a
duplicate token. -/
def wRun : List Char → List Char → SubprocResult :=
  fun _ _ => SubprocResult.completed 0 " a b  a ".data []

/-- A discovery world whose command fails to launch. -/
def wRunFail : List Char → List Char → SubprocResult :=
  fun _ _ => SubprocResult.launchFailure []

/-- A config section with `type = simple` and `cmd = echo`. -/
def c10optsOk : List Char → Option (List Char) :=
  fun k => if k = "type".data then some "simple".data
    else if k = "cmd".data then some "echo".data else none

theorem C1_scan_error_witness :
    ∃ e, wScanner.scan none wRunFail "/w".data none false = Except.error e :=
  (C1_scan_error_iff_discovery_failure wScanner none wRunFail "/w".data none false
    rfl).1.mpr (Or.inl ⟨[], rfl⟩)

theorem C2_trimmed_witness : pyStrip "a".data = "a".data :=
  C2_scan_results_trimmed wScanner none wRun "/w".data none false
    ["a".data, "b".data, "a".data] none (by rfl) "a".data (by decide)

theorem C3_cache_witness :
    wScannerC.scan (some "x  y".data) wRunFail "/w".data none false =
      Except.ok ((pySplit "x  y".data).map pyStrip, some "x  y".data) ∧
    wScannerC.scan (some "x  y".data) wRunFail "/w".data none false =
      wScannerC.scan (some "x  y".data) wRun "/w".data none false :=
  (C3_scan_cache_policy wScannerC wRunFail wRun "/w".data none).1 "x  y".data rfl

theorem C4_token_witness :
    ∃ cf, wScanner.scan none wRun "/w".data none false =
      Except.ok (pySplit " a b  a ".data, cf) :=
  (C4_scan_token_per_entry wScanner wRun "/w".data none).1 none false
    " a b  a ".data [] rfl rfl

theorem C5_match_witness :
    ∃ r, FuzzyMatch.score "mn".data "main.go".data = some r :=
  (C5_score_none_iff_not_subsequence "mn".data "main.go".data).2 (by decide)

theorem C6_smart_case_witness :
    (FuzzyMatch.score "Fo".data "Foo".data ≠ none ↔ "Fo".data.Sublist "Foo".data) ∧
    (FuzzyMatch.score "fo".data "Foo".data ≠ none ↔
      ("fo".data.map Char.toLower).Sublist ("Foo".data.map Char.toLower)) :=
  ⟨(C6_smart_case "Fo".data "Foo".data).1 rfl,
   (C6_smart_case "fo".data "Foo".data).2.1 rfl⟩

theorem C7_narrowing_witness :
    (⟨0, "main.go".data⟩ : Candidate) ∈ poolFor [⟨0, "main.go".data⟩] "m".data :=
  C7_monotonic_narrowing [⟨0, "main.go".data⟩] "m".data 'n' ⟨0, "main.go".data⟩
    (by decide)

theorem C8_suitable_witness :
    wScannerR.is_suitable id wRun "/r/sub".data = Except.ok true :=
  (C8_is_suitable_true_iff wScannerR id wRun "/r/sub".data
    (fun dc st h => by simp [wScannerR] at h)).1.mpr
    (Or.inl ⟨"/r".data, rfl, by decide⟩)

theorem C9_round_trip_witness :
    wScannerC.scan (some "a\nb\na".data) wRunFail "/w2".data none false =
      Except.ok (["a".data, "b".data, "a".data], some "a\nb\na".data) :=
  C9_cache_round_trip wScannerC none wRun wRunFail "/w".data "/w2".data none none
    true ["a".data, "b".data, "a".data] "a\nb\na".data rfl rfl (by rfl)

theorem C10_cases_witness :
    scanner_from_configparser id "rule".data c10optsOk = Except.ok
      { name := "rule".data
        cmd := replaceNL "echo".data
        priority := Sum.inr 0
        detect_cmd := none
        root_path := none
        cache := none } :=
  (C10_scanner_from_configparser_cases id "rule".data c10optsOk).2.2.2
    "echo".data rfl rfl
